import Mathlib

/-!
Verification of the data-entropy visualizer (`ooo.py`).

Shallow embedding of the sampling/aggregation engine of the repository
`Visualization-of-data-entropy`.  The Python source is a single file
`ooo.py`; the definitions below translate its pure computational core:

* `AppConfig` — the numeric configuration constants of class `AppConfig`;
* region mapping (`RenderWorker.sample_point`, lines 144-150):
  `chunk_size`, `region_start`, `max_offset`, `sample_pos`;
* the size check and coordinate partition of the single-file scheduler
  (`FileProcessorThread.run`, lines 194-224): `file_processor_run`,
  `coord_chunks`, `all_coordinates`;
* the cell aggregator (`VisualizationWidget.update_point_average` /
  `clear_grid`, lines 284-301): `update_point_average`, `clear_grid`;
* the score function `len(set(data))`: `score`;
* the worker sampling loop (`RenderWorker.run`, lines 155-173) with an
  explicit read oracle: `worker_events`;
* the multi-file batch tick (`FileSetWindow.trigger_sampling_batch`,
  lines 482-518): `points_per_file_per_batch`, `tick_chunk`.

The float arithmetic of Python on `chunk_size` is embedded as exact rational
arithmetic (`ℚ`), matching the reading of the specification
(`chunkSize = fileSize / totalPoints`, real-valued).
-/

namespace AppConfig

/-- Constant `VIS_WIDTH = 800` (`ooo.py` line 38). -/
def VIS_WIDTH : ℕ := 800

/-- Constant `VIS_HEIGHT = 80` (line 39). -/
def VIS_HEIGHT : ℕ := 80

/-- Constant `CELL_SIZE = 2` (line 40). -/
def CELL_SIZE : ℕ := 2

/-- Constant `LOGICAL_WIDTH = VIS_WIDTH // CELL_SIZE` (line 41). -/
def LOGICAL_WIDTH : ℕ := VIS_WIDTH / CELL_SIZE

/-- Constant `LOGICAL_HEIGHT = VIS_HEIGHT // CELL_SIZE` (line 42). -/
def LOGICAL_HEIGHT : ℕ := VIS_HEIGHT / CELL_SIZE

/-- Constant `TOTAL_POINTS = LOGICAL_WIDTH * LOGICAL_HEIGHT` (line 43). -/
def TOTAL_POINTS : ℕ := LOGICAL_WIDTH * LOGICAL_HEIGHT

/-- Constant `BYTES_PER_SAMPLE = 8` (line 46). -/
def BYTES_PER_SAMPLE : ℕ := 8

/-- Constant `GRID_CELL_LOGICAL_WIDTH = 100` (line 49). -/
def GRID_CELL_LOGICAL_WIDTH : ℕ := 100

/-- Constant `GRID_CELL_LOGICAL_HEIGHT = 100` (line 50). -/
def GRID_CELL_LOGICAL_HEIGHT : ℕ := 100

/-- Constant `GRID_TOTAL_POINTS = GRID_CELL_LOGICAL_WIDTH * GRID_CELL_LOGICAL_HEIGHT`
(line 51). -/
def GRID_TOTAL_POINTS : ℕ := GRID_CELL_LOGICAL_WIDTH * GRID_CELL_LOGICAL_HEIGHT

/-- Constant `FILESET_BATCH_SIZE = 500` (line 57). -/
def FILESET_BATCH_SIZE : ℕ := 500

end AppConfig

/-! Section: Region mapping (`RenderWorker.sample_point`, lines 144-150)

```python
index = x * self.logical_height + y
region_start = int(index * self.chunk_size)
max_offset = max(0, self.chunk_size - AppConfig.BYTES_PER_SAMPLE)
sample_pos = region_start + random.randint(0, int(max_offset))
```
with `chunk_size = file_size / total_points` (true division, line 205). -/

/-- Definition `chunk_size = file_size / total_points` (`FileProcessorThread.run`
line 205; true division, embedded in `ℚ`). -/
def chunk_size (fileSize totalPoints : ℕ) : ℚ :=
  (fileSize : ℚ) / (totalPoints : ℚ)

/-- Definition `index = x * logical_height + y` (line 145). -/
def point_index (logicalHeight x y : ℕ) : ℕ :=
  x * logicalHeight + y

/-- Definition `region_start = int(index * chunk_size)` (line 146).  The argument is
nonnegative, so the `int` truncation of Python is the floor. -/
def region_start (fileSize totalPoints logicalHeight x y : ℕ) : ℤ :=
  ⌊(point_index logicalHeight x y : ℚ) * chunk_size fileSize totalPoints⌋

/-- Definition `max_offset = max(0, chunk_size - BYTES_PER_SAMPLE)` (line 147),
parameterized over the sample width (the constant `8` in the GUI paths, the
dialog value in the export path). -/
def max_offset (fileSize totalPoints sampleBytes : ℕ) : ℚ :=
  max 0 (chunk_size fileSize totalPoints - (sampleBytes : ℚ))

/-- Definition `sample_pos = region_start + random.randint(0, int(max_offset))`
(line 148), with the random draw `off` made explicit. -/
def sample_pos (fileSize totalPoints logicalHeight x y : ℕ) (off : ℤ) : ℤ :=
  region_start fileSize totalPoints logicalHeight x y + off

theorem chunk_size_nonneg (fileSize totalPoints : ℕ) :
    0 ≤ chunk_size fileSize totalPoints := by
  unfold chunk_size
  positivity

theorem region_start_nonneg (fileSize totalPoints logicalHeight x y : ℕ) :
    0 ≤ region_start fileSize totalPoints logicalHeight x y := by
  unfold region_start
  exact Int.floor_nonneg.mpr
    (mul_nonneg (Nat.cast_nonneg _) (chunk_size_nonneg fileSize totalPoints))

/-- Core bound: if `totalPoints = W * H`, the coordinate is in range and the
offset is a valid draw from `randint(0, int(max_offset))`, then with
`fileSize ≥ totalPoints` (so `chunk_size ≥ 1`) the sample position is
strictly below `fileSize`. -/
theorem sample_pos_lt_fileSize (fileSize W H x y : ℕ) (off : ℤ)
    (hx : x < W) (hy : y < H)
    (hsize : W * H ≤ fileSize)
    (hoff0 : 0 ≤ off)
    (hoff : off ≤ ⌊max_offset fileSize (W * H) AppConfig.BYTES_PER_SAMPLE⌋) :
    sample_pos fileSize (W * H) H x y off < (fileSize : ℤ) := by
  have hW : 0 < W := lt_of_le_of_lt (Nat.zero_le x) hx
  have hH : 0 < H := lt_of_le_of_lt (Nat.zero_le y) hy
  have hP : 0 < W * H := Nat.mul_pos hW hH
  set P : ℕ := W * H with hPdef
  set c : ℚ := chunk_size fileSize P with hc
  have hcpos : 1 ≤ c := by
    rw [hc]
    unfold chunk_size
    rw [le_div_iff₀ (by exact_mod_cast hP)]
    rw [one_mul]
    exact_mod_cast hsize
  have hidx : (point_index H x y : ℚ) ≤ (P : ℚ) - 1 := by
    have h1 : point_index H x y + 1 ≤ P := by
      unfold point_index
      calc x * H + y + 1 ≤ x * H + H := by omega
        _ = (x + 1) * H := by ring
        _ ≤ W * H := Nat.mul_le_mul_right H hx
    have : ((point_index H x y : ℕ) : ℚ) + 1 ≤ (P : ℚ) := by
      exact_mod_cast h1
    linarith
  have hPc : (P : ℚ) * c = (fileSize : ℚ) := by
    rw [hc]
    unfold chunk_size
    field_simp
  -- split on whether the region is at least one sample wide
  by_cases hbig : (AppConfig.BYTES_PER_SAMPLE : ℚ) ≤ c
  · -- max_offset = c - 8, off ≤ ⌊c - 8⌋ ≤ c - 8
    have hmax : max_offset fileSize P AppConfig.BYTES_PER_SAMPLE
        = c - (AppConfig.BYTES_PER_SAMPLE : ℚ) := by
      unfold max_offset
      rw [← hc, max_eq_right (by linarith)]
    have hoffq : (off : ℚ) ≤ c - (AppConfig.BYTES_PER_SAMPLE : ℚ) := by
      calc (off : ℚ) ≤ (⌊max_offset fileSize P AppConfig.BYTES_PER_SAMPLE⌋ : ℚ) := by
            exact_mod_cast hoff
        _ ≤ max_offset fileSize P AppConfig.BYTES_PER_SAMPLE := Int.floor_le _
        _ = c - (AppConfig.BYTES_PER_SAMPLE : ℚ) := by rw [hmax]
    have hrs : ((region_start fileSize P H x y : ℤ) : ℚ)
        ≤ (point_index H x y : ℚ) * c := by
      unfold region_start
      rw [← hc]
      exact Int.floor_le _
    have hlt : ((sample_pos fileSize P H x y off : ℤ) : ℚ) < (fileSize : ℚ) := by
      unfold sample_pos
      push_cast
      have hB : (8 : ℚ) ≤ (AppConfig.BYTES_PER_SAMPLE : ℚ) := by norm_num [AppConfig.BYTES_PER_SAMPLE]
      nlinarith [hrs, hoffq, hidx, hPc, hcpos]
    exact_mod_cast hlt
  · -- region too small: max_offset < 8 so ⌊max_offset⌋ ≤ 7, but in fact we
    -- use only off ≤ ⌊max 0 (c-8)⌋ = 0 since c < 8 ⊎ c ≥ 8 handled above
    push_neg at hbig
    have hmax : max_offset fileSize P AppConfig.BYTES_PER_SAMPLE = 0 := by
      unfold max_offset
      rw [← hc, max_eq_left (by linarith)]
    have hoff0' : off = 0 := by
      rw [hmax] at hoff
      simp at hoff
      omega
    subst hoff0'
    have hrs : ((region_start fileSize P H x y : ℤ) : ℚ)
        ≤ (point_index H x y : ℚ) * c := by
      unfold region_start
      rw [← hc]
      exact Int.floor_le _
    have hlt : ((sample_pos fileSize P H x y 0 : ℤ) : ℚ) < (fileSize : ℚ) := by
      unfold sample_pos
      push_cast
      nlinarith [hrs, hidx, hPc, hcpos]
    exact_mod_cast hlt

/-! Section: Claim C2 and C7 theorems -/

/-- Claim C2: for every coordinate `(x, y)` inside the `W × H` geometry, every
`fileSize ≥ totalPoints * sampleBytes` (with `sampleBytes =
BYTES_PER_SAMPLE = 8`), and every draw `off` of
`random.randint(0, int(max_offset))`, the computed sample byte position
`region_start + off` lies in `[0, fileSize)`. -/
theorem sample_pos_in_range (fileSize W H x y : ℕ) (off : ℤ)
    (hx : x < W) (hy : y < H)
    (hsize : W * H * AppConfig.BYTES_PER_SAMPLE ≤ fileSize)
    (hoff0 : 0 ≤ off)
    (hoff : off ≤ ⌊max_offset fileSize (W * H) AppConfig.BYTES_PER_SAMPLE⌋) :
    0 ≤ sample_pos fileSize (W * H) H x y off ∧
      sample_pos fileSize (W * H) H x y off < (fileSize : ℤ) := by
  constructor
  · exact add_nonneg (region_start_nonneg fileSize (W * H) H x y) hoff0
  · refine sample_pos_lt_fileSize fileSize W H x y off hx hy ?_ hoff0 hoff
    calc W * H ≤ W * H * AppConfig.BYTES_PER_SAMPLE :=
          Nat.le_mul_of_pos_right _ (by norm_num [AppConfig.BYTES_PER_SAMPLE])
      _ ≤ fileSize := hsize

/-- Witness for C2 at the concrete input `W = 2`, `H = 2`, `fileSize = 32`,
`(x, y) = (1, 1)`, `off = 0`. -/
theorem sample_pos_in_range_witness :
    (1 < 2 ∧ 1 < 2 ∧ 2 * 2 * AppConfig.BYTES_PER_SAMPLE ≤ 32 ∧ (0 : ℤ) ≤ 0 ∧
      (0 : ℤ) ≤ ⌊max_offset 32 (2 * 2) AppConfig.BYTES_PER_SAMPLE⌋) ∧
    (0 ≤ sample_pos 32 (2 * 2) 2 1 1 0 ∧ sample_pos 32 (2 * 2) 2 1 1 0 < (32 : ℤ)) := by
  have hfloor : ⌊max_offset 32 (2 * 2) AppConfig.BYTES_PER_SAMPLE⌋ = 0 := by
    norm_num [max_offset, chunk_size, AppConfig.BYTES_PER_SAMPLE]
  refine ⟨⟨by norm_num, by norm_num,
    by norm_num [AppConfig.BYTES_PER_SAMPLE], le_refl 0, by rw [hfloor]⟩, ?_⟩
  exact sample_pos_in_range 32 2 2 1 1 0 (by norm_num) (by norm_num)
    (by norm_num [AppConfig.BYTES_PER_SAMPLE]) (le_refl 0) (by rw [hfloor])

/-- Claim C7: whenever `chunk_size ≤ sampleBytes`, the maximum random offset
clamps to `0` — `int(max(0, chunk_size - sampleBytes)) = 0` — so every draw
of `random.randint(0, 0)` is `0` and the sample position equals
`region_start` deterministically.  (The concrete instance of the claim,
10×5 / 400 bytes / 8-byte samples, where `chunk_size = 8`, is the witness.) -/
theorem small_region_deterministic (fileSize totalPoints logicalHeight x y sampleBytes : ℕ)
    (h : chunk_size fileSize totalPoints ≤ (sampleBytes : ℚ)) :
    ⌊max_offset fileSize totalPoints sampleBytes⌋ = 0 ∧
    ∀ off : ℤ, 0 ≤ off → off ≤ ⌊max_offset fileSize totalPoints sampleBytes⌋ →
      sample_pos fileSize totalPoints logicalHeight x y off =
        region_start fileSize totalPoints logicalHeight x y := by
  have hmax : max_offset fileSize totalPoints sampleBytes = 0 := by
    unfold max_offset
    rw [max_eq_left (by linarith)]
  constructor
  · rw [hmax]
    exact Int.floor_zero
  · intro off hoff0 hoff
    rw [hmax, Int.floor_zero] at hoff
    have : off = 0 := le_antisymm hoff hoff0
    subst this
    unfold sample_pos
    ring

/-- Witness for C7 at the concrete scenario of the claim: geometry 10×5
(`totalPoints = 50`, `logicalHeight = 5`), `fileSize = 400`,
`sampleBytes = 8`, so `chunk_size = 8`; checked at coordinate `(9, 4)`. -/
theorem small_region_deterministic_witness :
    chunk_size 400 50 ≤ ((8 : ℕ) : ℚ) ∧
    (⌊max_offset 400 50 8⌋ = 0 ∧
      sample_pos 400 50 5 9 4 0 = region_start 400 50 5 9 4) := by
  have h : chunk_size 400 50 ≤ ((8 : ℕ) : ℚ) := by
    norm_num [chunk_size]
  refine ⟨h, (small_region_deterministic 400 50 5 9 4 8 h).1, ?_⟩
  exact (small_region_deterministic 400 50 5 9 4 8 h).2 0 (le_refl 0)
    (by rw [(small_region_deterministic 400 50 5 9 4 8 h).1])

/-! Section: Coordinate grid and first-pass partition
(`FileProcessorThread.run`, lines 206-210)

```python
all_coordinates = [(x, y) for y in range(LOGICAL_HEIGHT) for x in range(LOGICAL_WIDTH)]
random.shuffle(all_coordinates)
coords_per_worker = (TOTAL_POINTS + NUM_WORKERS - 1) // NUM_WORKERS
coord_chunks = [all_coordinates[i:i + coords_per_worker]
                for i in range(0, TOTAL_POINTS, coords_per_worker)]
```

The shuffle is modelled by quantifying over an arbitrary permutation of the
generated coordinate list. -/

/-- The coordinate comprehension of line 206 (outer loop over `y`, inner
over `x`), generalized over the geometry. -/
def all_coordinates (W H : ℕ) : List (ℕ × ℕ) :=
  (List.range H).flatMap (fun y => (List.range W).map (fun x => (x, y)))

/-- Definition `coords_per_worker = (totalPoints + numWorkers - 1) // numWorkers`
(line 209). -/
def coords_per_worker (totalPoints numWorkers : ℕ) : ℕ :=
  (totalPoints + numWorkers - 1) / numWorkers

/-- The chunking comprehension of line 210: successive slices
`l[i:i+k]` for `i = 0, k, 2k, …` — equivalently, repeatedly take
`k` elements until the list is exhausted.  (`k = 0` cannot occur at the
call site, where `k ≥ 1` whenever the list is non-empty.) -/
def coord_chunks {α : Type} (k : ℕ) : List α → List (List α)
  | [] => []
  | a :: l' =>
    if _hk : k = 0 then []
    else (a :: l').take k :: coord_chunks k ((a :: l').drop k)
termination_by l => l.length
decreasing_by
  rw [List.length_drop]
  simp only [List.length_cons]
  omega

theorem coord_chunks_nil {α : Type} (k : ℕ) : coord_chunks k ([] : List α) = [] := by
  rw [coord_chunks]

theorem coord_chunks_cons {α : Type} (k : ℕ) (hk : k ≠ 0) (l : List α) (hl : l ≠ []) :
    coord_chunks k l = l.take k :: coord_chunks k (l.drop k) := by
  match l, hl with
  | a :: l', _ =>
    rw [coord_chunks]
    rw [dif_neg hk]

/-- Concatenating the slices of line 210 gives back the (shuffled)
coordinate list. -/
theorem coord_chunks_flatten {α : Type} (k : ℕ) (hk : k ≠ 0) (l : List α) :
    (coord_chunks k l).flatten = l := by
  generalize hn : l.length = n
  induction n using Nat.strong_induction_on generalizing l with
  | _ n ih =>
    rcases eq_or_ne l [] with hl | hl
    · subst hl
      rw [coord_chunks_nil]
      rfl
    · subst hn
      rw [coord_chunks_cons k hk l hl]
      have hlen : (l.drop k).length < l.length := by
        rw [List.length_drop]
        have h1 : l.length ≠ 0 := fun hlen => hl (List.length_eq_zero.mp hlen)
        omega
      rw [List.flatten_cons, ih _ hlen (l.drop k) rfl]
      exact List.take_append_drop k l

theorem all_coordinates_length (W H : ℕ) : (all_coordinates W H).length = W * H := by
  unfold all_coordinates
  rw [List.length_flatMap]
  have hmap : (List.range H).map (List.length ∘ fun y => (List.range W).map (fun x => (x, y)))
      = (List.range H).map (fun _ => W) := by
    apply List.map_congr_left
    intro y _
    simp
  rw [hmap]
  rw [List.map_const', List.sum_replicate, List.length_range, smul_eq_mul]
  ring

theorem mem_all_coordinates (W H x y : ℕ) :
    (x, y) ∈ all_coordinates W H ↔ x < W ∧ y < H := by
  unfold all_coordinates
  simp only [List.mem_flatMap, List.mem_map, List.mem_range, Prod.mk.injEq]
  constructor
  · rintro ⟨y', hy', x', hx', hxx, hyy⟩
    exact ⟨hxx ▸ hx', hyy ▸ hy'⟩
  · rintro ⟨hx, hy⟩
    exact ⟨y, hy, x, hx, rfl, rfl⟩

theorem all_coordinates_nodup (W H : ℕ) : (all_coordinates W H).Nodup := by
  unfold all_coordinates
  rw [List.nodup_flatMap]
  constructor
  · intro y _
    exact (List.nodup_range W).map (fun a b hab => congrArg Prod.fst hab)
  · refine List.Pairwise.imp ?_ (List.pairwise_lt_range H)
    intro a b hab
    intro p hpa hpb
    simp only [List.mem_map] at hpa hpb
    obtain ⟨xa, _, ha⟩ := hpa
    obtain ⟨xb, _, hb⟩ := hpb
    have h2 : a = b := by
      have h1 : p.2 = a := by rw [← ha]
      have h2 : p.2 = b := by rw [← hb]
      rw [← h1, ← h2]
    exact absurd h2 (ne_of_lt hab)

/-- Lemma: `List.count` does not depend on which lawful `BEq` instance elaboration
picked. -/
theorem count_beq_invariant {α : Type} (i₁ i₂ : BEq α)
    (h₁ : @LawfulBEq α i₁) (h₂ : @LawfulBEq α i₂) (a : α) (l : List α) :
    @List.count α i₁ a l = @List.count α i₂ a l := by
  induction l with
  | nil => rfl
  | cons b t ih =>
    rw [@List.count_cons α i₁, @List.count_cons α i₂, ih]
    by_cases h : b = a
    · subst h
      rw [@beq_self_eq_true α i₁ h₁, @beq_self_eq_true α i₂ h₂]
    · rw [(@beq_eq_false_iff_ne α i₁ h₁ b a).mpr h, (@beq_eq_false_iff_ne α i₂ h₂ b a).mpr h]

theorem lawfulBEq_of_decEq {α : Type} [DecidableEq α] :
    @LawfulBEq α instBEqOfDecidableEq := by
  constructor
  · intro a b h
    exact of_decide_eq_true h
  · intro a
    exact decide_eq_true rfl

/-- Any permutation of the full coordinate grid contains each in-bounds
coordinate exactly once. -/
theorem count_one_of_perm_grid (W H x y : ℕ) (l : List (ℕ × ℕ))
    (hperm : l.Perm (all_coordinates W H)) (hx : x < W) (hy : y < H) :
    l.count (x, y) = 1 := by
  rw [count_beq_invariant instBEqProd instBEqOfDecidableEq inferInstance lawfulBEq_of_decEq]
  rw [List.Perm.count_eq hperm]
  exact List.count_eq_one_of_mem (all_coordinates_nodup W H)
    ((mem_all_coordinates W H x y).mpr ⟨hx, hy⟩)

/-- Claim C3: for every `W × H` grid and worker count `N ≥ 1`, cutting any
shuffle `l` of the full coordinate list into contiguous slices of length
`coords_per_worker = ⌈totalPoints / N⌉` assigns every grid coordinate to
exactly one slice: the concatenation of the slices is a permutation of the
full grid, and each in-bounds coordinate occurs exactly once across all
slices (no duplicates, no omissions). -/
theorem first_pass_partition (W H N : ℕ) (l : List (ℕ × ℕ)) (hN : 1 ≤ N)
    (hperm : l.Perm (all_coordinates W H)) :
    (coord_chunks (coords_per_worker (W * H) N) l).flatten.Perm (all_coordinates W H) ∧
    (∀ x y, x < W → y < H →
      ((coord_chunks (coords_per_worker (W * H) N) l).flatten.count (x, y)) = 1) := by
  rcases eq_or_ne l [] with hl | hl
  · subst hl
    rw [coord_chunks_nil]
    have hnil : (all_coordinates W H) = [] := (List.Perm.nil_eq hperm).symm
    refine ⟨by rw [hnil]; exact List.Perm.refl _, ?_⟩
    intro x y hx hy
    exfalso
    have h1 : (x, y) ∈ all_coordinates W H := (mem_all_coordinates W H x y).mpr ⟨hx, hy⟩
    rw [hnil] at h1
    exact List.not_mem_nil _ h1
  · have hlen : l.length = W * H := by
      rw [List.Perm.length_eq hperm, all_coordinates_length]
    have hk : coords_per_worker (W * H) N ≠ 0 := by
      unfold coords_per_worker
      have hP : 0 < W * H := by
        have : l.length ≠ 0 := fun h0 => hl (List.length_eq_zero.mp h0)
        omega
      have : N ≤ W * H + N - 1 := by omega
      have := Nat.one_le_div_iff (Nat.lt_of_lt_of_le Nat.zero_lt_one hN) |>.mpr this
      omega
    rw [coord_chunks_flatten _ hk]
    exact ⟨hperm, fun x y hx hy => count_one_of_perm_grid W H x y l hperm hx hy⟩

/-- Witness for C3 on the concrete 2×2 grid with `N = 3` workers and the
shuffle `[(1,1), (0,0), (1,0), (0,1)]`. -/
theorem first_pass_partition_witness :
    (1 ≤ 3 ∧ [((1:ℕ),(1:ℕ)), (0,0), (1,0), (0,1)].Perm (all_coordinates 2 2)) ∧
    ((coord_chunks (coords_per_worker (2 * 2) 3)
        [((1:ℕ),(1:ℕ)), (0,0), (1,0), (0,1)]).flatten.Perm (all_coordinates 2 2) ∧
      (coord_chunks (coords_per_worker (2 * 2) 3)
        [((1:ℕ),(1:ℕ)), (0,0), (1,0), (0,1)]).flatten.count (1, 0) = 1) := by
  have hperm : [((1:ℕ),(1:ℕ)), (0,0), (1,0), (0,1)].Perm (all_coordinates 2 2) := by
    unfold all_coordinates
    decide
  refine ⟨⟨by norm_num, hperm⟩, (first_pass_partition 2 2 3 _ (by norm_num) hperm).1, ?_⟩
  exact (first_pass_partition 2 2 3 _ (by norm_num) hperm).2 1 0 (by norm_num) (by norm_num)

/-! Section: Single-file scheduler size check (`FileProcessorThread.run`, lines 194-224)

```python
file_size = os.path.getsize(self.file_path)
if file_size < AppConfig.TOTAL_POINTS:
    self.error_occurred.emit("文件太小，无法映射")
    return
...
coord_chunks = [...]
for chunk in coord_chunks:
    worker = RenderWorker(...); self.workers.append(worker); worker.start()
```

The outcome is either the too-small terminal error (zero workers started)
or a set of started workers, one per coordinate slice.  `NUM_WORKERS`
(`os.cpu_count() or 4`) is a parameter. -/

/-- Outcome of `FileProcessorThread.run` up to worker start. -/
inductive SchedulerOutcome : Type where
  /-- the `error_occurred.emit("文件太小…"); return` path of lines 201-203 -/
  | errorTooSmall : SchedulerOutcome
  /-- the scheduling path: `workers` is the number of `RenderWorker`s
  started (the number of coordinate slices, lines 210-219) -/
  | scheduled (workers : ℕ) : SchedulerOutcome
deriving DecidableEq

/-- The size check and worker start of `FileProcessorThread.run`
(lines 200-219), for an existing file of size `fileSize` with
`numWorkers = NUM_WORKERS`. -/
def file_processor_run (fileSize numWorkers : ℕ) : SchedulerOutcome :=
  if fileSize < AppConfig.TOTAL_POINTS then .errorTooSmall
  else .scheduled (coord_chunks (coords_per_worker AppConfig.TOTAL_POINTS numWorkers)
    (all_coordinates AppConfig.LOGICAL_WIDTH AppConfig.LOGICAL_HEIGHT)).length

theorem coord_chunks_length_pos {α : Type} (k : ℕ) (hk : k ≠ 0) (l : List α)
    (hl : l ≠ []) : 1 ≤ (coord_chunks k l).length := by
  rw [coord_chunks_cons k hk l hl]
  simp

theorem all_coordinates_config_ne_nil :
    all_coordinates AppConfig.LOGICAL_WIDTH AppConfig.LOGICAL_HEIGHT ≠ [] := by
  intro h
  have hlen := all_coordinates_length AppConfig.LOGICAL_WIDTH AppConfig.LOGICAL_HEIGHT
  rw [h] at hlen
  exact absurd hlen.symm (by decide)

theorem coords_per_worker_config_ne_zero (numWorkers : ℕ) (hN : 1 ≤ numWorkers) :
    coords_per_worker AppConfig.TOTAL_POINTS numWorkers ≠ 0 := by
  unfold coords_per_worker
  have h1 : numWorkers ≤ AppConfig.TOTAL_POINTS + numWorkers - 1 := by
    have : 1 ≤ AppConfig.TOTAL_POINTS := by decide
    omega
  have := (Nat.one_le_div_iff (Nat.lt_of_lt_of_le Nat.zero_lt_one hN)).mpr h1
  omega

/-- Claim C1 (amended): the actual threshold of the single-file scheduler is
`TOTAL_POINTS`, not `TOTAL_POINTS * BYTES_PER_SAMPLE`: it rejects with the
too-small terminal error (starting zero workers) exactly when
`fileSize < TOTAL_POINTS`, and otherwise starts at least one sampling
worker. -/
theorem single_file_size_check (fileSize numWorkers : ℕ) (hN : 1 ≤ numWorkers) :
    (file_processor_run fileSize numWorkers = SchedulerOutcome.errorTooSmall ↔
      fileSize < AppConfig.TOTAL_POINTS) ∧
    (AppConfig.TOTAL_POINTS ≤ fileSize →
      ∃ n, file_processor_run fileSize numWorkers = SchedulerOutcome.scheduled n ∧ 1 ≤ n) := by
  unfold file_processor_run
  by_cases h : fileSize < AppConfig.TOTAL_POINTS
  · rw [if_pos h]
    exact ⟨⟨fun _ => h, fun _ => rfl⟩, fun hge => absurd h (not_lt.mpr hge)⟩
  · rw [if_neg h]
    refine ⟨⟨fun hcontra => absurd hcontra (by simp), fun hlt => absurd hlt h⟩, fun _ => ?_⟩
    exact ⟨_, rfl, coord_chunks_length_pos _
      (coords_per_worker_config_ne_zero numWorkers hN) _ all_coordinates_config_ne_nil⟩

/-- Witness for the amended C1 at `fileSize = 0` (Scenario B) and
`numWorkers = 4`. -/
theorem single_file_size_check_witness :
    1 ≤ 4 ∧
    ((file_processor_run 0 4 = SchedulerOutcome.errorTooSmall ↔
        0 < AppConfig.TOTAL_POINTS) ∧
      (AppConfig.TOTAL_POINTS ≤ 0 →
        ∃ n, file_processor_run 0 4 = SchedulerOutcome.scheduled n ∧ 1 ≤ n)) :=
  ⟨by norm_num, single_file_size_check 0 4 (by norm_num)⟩

/-- Counterexample to claim C1: a file of size 16000 satisfies
`fileSize < TOTAL_POINTS * BYTES_PER_SAMPLE = 128000`, yet the scheduler
does *not* reject it — it starts at least one worker.  The claim "for every
file whose size is strictly less than totalPoints × sampleBytes, the
single-file scheduler rejects scheduling with a too-small terminal error
and starts zero sampling workers" is therefore false of the code, whose
check (`ooo.py` line 201) is `file_size < AppConfig.TOTAL_POINTS`. -/
theorem single_file_size_check_cex :
    16000 < AppConfig.TOTAL_POINTS * AppConfig.BYTES_PER_SAMPLE ∧
    file_processor_run 16000 4 ≠ SchedulerOutcome.errorTooSmall ∧
    ∃ n, file_processor_run 16000 4 = SchedulerOutcome.scheduled n ∧ 1 ≤ n := by
  have hrun : file_processor_run 16000 4 = SchedulerOutcome.scheduled
      (coord_chunks (coords_per_worker AppConfig.TOTAL_POINTS 4)
        (all_coordinates AppConfig.LOGICAL_WIDTH AppConfig.LOGICAL_HEIGHT)).length := by
    unfold file_processor_run
    rw [if_neg (by decide)]
  refine ⟨by decide, ?_, ?_⟩
  · rw [hrun]
    simp
  · exact ⟨_, hrun, coord_chunks_length_pos _
      (coords_per_worker_config_ne_zero 4 (by norm_num)) _ all_coordinates_config_ne_nil⟩

/-! Section: Cell aggregator (`VisualizationWidget`, lines 284-301)

```python
def clear_grid(self):
    self.grid_stats.clear()

def update_point_average(self, x, y, new_score):
    pos = (x, y)
    if pos not in self.grid_stats:
        self.grid_stats[pos] = {"total_score": 0, "count": 0, ...}
    stats = self.grid_stats[pos]
    new_count = stats["count"] + 1
    new_total = stats["total_score"] + new_score
    new_average_score = new_total / new_count
    stats["total_score"] = new_total
    stats["count"] = new_count
```

`grid_stats` is a dict keyed by coordinate; it is embedded as a partial map
`ℕ × ℕ → Option GridCell`.  The `display_color` entry and the glow
animation are presentation state, excluded from the engine model. -/

/-- One cell of `grid_stats`: the `total_score` and `count` entries. -/
structure GridCell : Type where
  total_score : ℤ
  count : ℕ
deriving DecidableEq

/-- Method `VisualizationWidget.update_point_average` (lines 289-298): create the
cell with zeroed fields if absent, then add `new_score` to `total_score`
and `1` to `count`. -/
def update_point_average (grid : ℕ × ℕ → Option GridCell) (p : ℕ × ℕ)
    (new_score : ℤ) : ℕ × ℕ → Option GridCell :=
  let stats := (grid p).getD ⟨0, 0⟩
  fun q => if q = p then some ⟨stats.total_score + new_score, stats.count + 1⟩ else grid q

/-- Method `VisualizationWidget.clear_grid` (lines 284-287): `grid_stats.clear()`. -/
def clear_grid : ℕ × ℕ → Option GridCell := fun _ => none

/-- The average a reader observes for a cell:
`stats["total_score"] / stats["count"]` (line 834, and line 296 for the
display color). -/
def observed_average (grid : ℕ × ℕ → Option GridCell) (q : ℕ × ℕ) : Option ℚ :=
  (grid q).map (fun st => (st.total_score : ℚ) / (st.count : ℚ))

/-- A sequence of `merge` calls into the same cell `p`, in the given order
(each cross-thread `point_sampled` signal is delivered as one
`update_point_average` call on the GUI thread). -/
def merge_scores (p : ℕ × ℕ) (l : List ℤ) (grid : ℕ × ℕ → Option GridCell) :
    ℕ × ℕ → Option GridCell :=
  l.foldl (fun g s => update_point_average g p s) grid

theorem update_point_average_self (grid : ℕ × ℕ → Option GridCell) (p : ℕ × ℕ)
    (s : ℤ) :
    update_point_average grid p s p =
      some ⟨((grid p).getD ⟨0, 0⟩).total_score + s, ((grid p).getD ⟨0, 0⟩).count + 1⟩ := by
  unfold update_point_average
  simp

theorem update_point_average_ne (grid : ℕ × ℕ → Option GridCell) (p q : ℕ × ℕ)
    (s : ℤ) (hq : q ≠ p) : update_point_average grid p s q = grid q := by
  unfold update_point_average
  simp [hq]

/-- Characterization of a run of merges into one cell: other cells are
untouched, and the target cell accumulates the sum and the length. -/
theorem merge_scores_apply (p : ℕ × ℕ) (l : List ℤ) :
    ∀ grid : ℕ × ℕ → Option GridCell,
    (∀ q, q ≠ p → merge_scores p l grid q = grid q) ∧
    (l ≠ [] → merge_scores p l grid p =
      some ⟨((grid p).getD ⟨0, 0⟩).total_score + l.sum,
            ((grid p).getD ⟨0, 0⟩).count + l.length⟩) := by
  induction l with
  | nil =>
    intro grid
    exact ⟨fun q _ => rfl, fun h => absurd rfl h⟩
  | cons s l' ih =>
    intro grid
    have hstep : merge_scores p (s :: l') grid =
        merge_scores p l' (update_point_average grid p s) := by
      unfold merge_scores
      rw [List.foldl_cons]
    constructor
    · intro q hq
      rw [hstep, (ih (update_point_average grid p s)).1 q hq,
        update_point_average_ne grid p q s hq]
    · intro _
      rcases eq_or_ne l' [] with hl' | hl'
      · subst hl'
        rw [hstep]
        unfold merge_scores
        rw [List.foldl_nil, update_point_average_self]
        simp
      · rw [hstep, (ih (update_point_average grid p s)).2 hl',
          update_point_average_self]
        simp only [Option.getD_some, List.sum_cons, List.length_cons]
        congr 1
        simp only [GridCell.mk.injEq]
        constructor
        · ring
        · omega

/-- Claim C4: merging `k ≥ 1` scores `s_1..s_k` into one cell of an empty grid
gives a final state with `count = k` and `average = (Σ s_i)/k`, and the
final aggregator state is the same for every permutation of the merge
order. -/
theorem aggregator_merge_order (p : ℕ × ℕ) (k : ℕ) (l : List ℤ)
    (hk : l.length = k) (h1 : 1 ≤ k) :
    (∃ st, merge_scores p l clear_grid p = some st ∧ st.count = k ∧
      observed_average (merge_scores p l clear_grid) p =
        some ((l.sum : ℚ) / (k : ℚ))) ∧
    (∀ l', l.Perm l' → merge_scores p l' clear_grid = merge_scores p l clear_grid) := by
  have hne : l ≠ [] := by
    intro h
    rw [h] at hk
    simp at hk
    omega
  have happ := (merge_scores_apply p l clear_grid).2 hne
  have hcell : merge_scores p l clear_grid p = some ⟨l.sum, l.length⟩ := by
    rw [happ]
    simp [clear_grid]
  constructor
  · refine ⟨⟨l.sum, l.length⟩, hcell, hk, ?_⟩
    unfold observed_average
    rw [hcell, hk]
    rfl
  · intro l' hperm
    funext q
    rcases eq_or_ne q p with hq | hq
    · rw [hq]
      have hne' : l' ≠ [] := by
        intro h
        subst h
        exact hne (List.Perm.eq_nil hperm)
      have hcell' : merge_scores p l' clear_grid p = some ⟨l'.sum, l'.length⟩ := by
        rw [(merge_scores_apply p l' clear_grid).2 hne']
        simp [clear_grid]
      rw [hcell', hcell, hperm.sum_eq, hperm.length_eq]
    · rw [(merge_scores_apply p l' clear_grid).1 q hq,
        (merge_scores_apply p l clear_grid).1 q hq]

/-- Witness for C4: merging the scores `[3, 5]` into cell `(1, 2)` of an
empty grid. -/
theorem aggregator_merge_order_witness :
    (([3, 5] : List ℤ).length = 2 ∧ 1 ≤ 2) ∧
    ((∃ st, merge_scores (1, 2) [3, 5] clear_grid (1, 2) = some st ∧ st.count = 2 ∧
        observed_average (merge_scores (1, 2) [3, 5] clear_grid) (1, 2) =
          some ((([3, 5] : List ℤ).sum : ℚ) / (2 : ℚ))) ∧
      (∀ l', ([3, 5] : List ℤ).Perm l' →
        merge_scores (1, 2) l' clear_grid = merge_scores (1, 2) [3, 5] clear_grid)) :=
  ⟨⟨by norm_num, by norm_num⟩,
    aggregator_merge_order (1, 2) 2 [3, 5] (by norm_num) (by norm_num)⟩

/-- The global aggregator invariant: every stored cell has `count ≥ 1`
(no cell with `count = 0` is observable outside the aggregator). -/
def grid_cells_valid (grid : ℕ × ℕ → Option GridCell) : Prop :=
  ∀ q st, grid q = some st → 1 ≤ st.count

/-- Claim C8: a merge into cell `p` (i) creates the cell on first touch with
`total_score = s`, `count = 1`; (ii) strictly increments the `count` of the
touched cell by exactly 1; (iii) leaves the observed average at
`total_score / count` with `count ≥ 1`; (iv) never deletes any cell;
(v) leaves every other coordinate unchanged; (vi) preserves the global
`count ≥ 1` invariant — while `clear_grid` (the explicit reset) removes
every cell. -/
theorem aggregator_invariants (grid : ℕ × ℕ → Option GridCell) (p : ℕ × ℕ)
    (s : ℤ) (hInv : grid_cells_valid grid) :
    (grid p = none → update_point_average grid p s p = some ⟨s, 1⟩) ∧
    (∃ st, update_point_average grid p s p = some st ∧
      st.count = ((grid p).getD ⟨0, 0⟩).count + 1 ∧
      st.total_score = ((grid p).getD ⟨0, 0⟩).total_score + s ∧
      1 ≤ st.count ∧
      observed_average (update_point_average grid p s) p =
        some ((st.total_score : ℚ) / (st.count : ℚ))) ∧
    (∀ q st, grid q = some st → (update_point_average grid p s q).isSome) ∧
    (∀ q, q ≠ p → update_point_average grid p s q = grid q) ∧
    grid_cells_valid (update_point_average grid p s) ∧
    (∀ q, clear_grid q = none) := by
  refine ⟨?_, ?_, ?_, ?_, ?_, fun _ => rfl⟩
  · intro hnone
    rw [update_point_average_self, hnone]
    simp
  · refine ⟨_, update_point_average_self grid p s, rfl, rfl, Nat.le_add_left 1 _, ?_⟩
    unfold observed_average
    rw [update_point_average_self]
    rfl
  · intro q st hq
    rcases eq_or_ne q p with hqp | hqp
    · rw [hqp, update_point_average_self]
      rfl
    · rw [update_point_average_ne grid p q s hqp, hq]
      rfl
  · exact fun q hq => update_point_average_ne grid p q s hq
  · intro q st hq
    rcases eq_or_ne q p with hqp | hqp
    · rw [hqp, update_point_average_self] at hq
      cases hq
      exact Nat.le_add_left 1 _
    · rw [update_point_average_ne grid p q s hqp] at hq
      exact hInv q st hq

/-- Witness for C8: merging score `4` into cell `(0, 3)` of the empty grid
(the empty grid satisfies the invariant vacuously). -/
theorem aggregator_invariants_witness :
    grid_cells_valid clear_grid ∧
    ((clear_grid (0, 3) = none → update_point_average clear_grid (0, 3) 4 (0, 3) = some ⟨4, 1⟩) ∧
      (∃ st, update_point_average clear_grid (0, 3) 4 (0, 3) = some st ∧
        st.count = ((clear_grid (0, 3)).getD ⟨0, 0⟩).count + 1 ∧
        st.total_score = ((clear_grid (0, 3)).getD ⟨0, 0⟩).total_score + 4 ∧
        1 ≤ st.count ∧
        observed_average (update_point_average clear_grid (0, 3) 4) (0, 3) =
          some ((st.total_score : ℚ) / (st.count : ℚ))) ∧
      (∀ q st, clear_grid q = some st → (update_point_average clear_grid (0, 3) 4 q).isSome) ∧
      (∀ q, q ≠ (0, 3) → update_point_average clear_grid (0, 3) 4 q = clear_grid q) ∧
      grid_cells_valid (update_point_average clear_grid (0, 3) 4) ∧
      (∀ q, clear_grid q = none)) := by
  have hInv : grid_cells_valid clear_grid := by
    intro q st hq
    exact absurd hq (by simp [clear_grid])
  exact ⟨hInv, aggregator_invariants clear_grid (0, 3) 4 hInv⟩

/-! Section: Score function (`RenderWorker.sample_point`, line 152; also
`FileSetBatchWorker.run` line 367 and `ExportRenderThread.run` line 695)

```python
score = len(set(data))
```
A byte window is a list of byte values (`Fin 256`); `len(set(data))` is the
number of distinct values in it. -/

/-- Definition `score = len(set(data))`: the number of distinct byte values in the
window. -/
def score (data : List (Fin 256)) : ℕ := data.dedup.length

/-- Claim C9: for every non-empty byte window `w`, `score w` is the count of
distinct byte values of `w` — equal to the cardinality of the set of values
occurring in `w` — and lies in `[1, len w]`; any window with the same set
of values (any order, any multiplicities) has the same score. -/
theorem score_spec (w : List (Fin 256)) (hw : w ≠ []) :
    1 ≤ score w ∧ score w ≤ w.length ∧ score w = w.toFinset.card ∧
    ∀ w' : List (Fin 256), (∀ b, b ∈ w' ↔ b ∈ w) → score w' = score w := by
  have hcard : ∀ v : List (Fin 256), score v = v.toFinset.card := by
    intro v
    rw [List.card_toFinset]
    rfl
  refine ⟨?_, ?_, hcard w, ?_⟩
  · unfold score
    have : w.dedup ≠ [] := fun h => hw ((List.dedup_eq_nil w).mp h)
    have : 0 < w.dedup.length := List.length_pos.mpr this
    omega
  · exact (List.dedup_sublist w).length_le
  · intro w' hmem
    rw [hcard w, hcard w']
    congr 1
    ext b
    simp only [List.mem_toFinset]
    exact hmem b

/-- Witness for C9 on the window `[0x41, 0x41, 0x42]`. -/
theorem score_spec_witness :
    ([(65 : Fin 256), 65, 66] ≠ []) ∧
    (1 ≤ score [(65 : Fin 256), 65, 66] ∧
      score [(65 : Fin 256), 65, 66] ≤ ([(65 : Fin 256), 65, 66]).length ∧
      score [(65 : Fin 256), 65, 66] = ([(65 : Fin 256), 65, 66]).toFinset.card ∧
      ∀ w' : List (Fin 256), (∀ b, b ∈ w' ↔ b ∈ [(65 : Fin 256), 65, 66]) →
        score w' = score [(65 : Fin 256), 65, 66]) :=
  ⟨by simp, score_spec [(65 : Fin 256), 65, 66] (by simp)⟩

/-! Section: Worker sampling loop with explicit read outcomes
(`RenderWorker.run`, lines 155-173)

```python
try:
    with open_file_for_shared_read(self.file_path) as f:
        ...
        for x, y in self.initial_coords:
            if not self.is_running: return
            self.sample_point(f, x, y)
        ...
except Exception:
    pass
```

`sample_point` (lines 144-153) seeks and reads with no inner
`try`/`except`; an exception raised by `f.seek`/`f.read` propagates out of
the `for` loop to the worker-level `except Exception: pass`, ending the
worker.  A read that merely returns no bytes (`if data:`) skips the
emission and the loop continues.  The seek/read outcome at each coordinate
is modelled by an oracle `read`. -/

/-- Outcome of one `f.seek(sample_pos); f.read(BYTES_PER_SAMPLE)` pair:
either the returned byte window (possibly empty, e.g. at end of a truncated
file) or a raised exception. -/
inductive ReadResult : Type where
  | ok (data : List (Fin 256)) : ReadResult
  | err : ReadResult
deriving DecidableEq

/-- The `point_sampled` events emitted by the first-pass `for` loop of
`RenderWorker.run` over its coordinate slice, under read oracle `read`:
an `ok` window with data emits `(coord, len(set(data)))`; an `ok` empty
window emits nothing and continues; `err` propagates to the worker-level
`except Exception: pass` and ends the loop. -/
def worker_events (read : ℕ × ℕ → ReadResult) : List (ℕ × ℕ) → List ((ℕ × ℕ) × ℕ)
  | [] => []
  | c :: rest =>
    match read c with
    | .err => []
    | .ok data =>
      if data = [] then worker_events read rest
      else (c, score data) :: worker_events read rest

/-- A concrete read oracle: the seek/read at `(0, 0)` raises; every other
read returns the one-byte window `[65]`. -/
def read_with_one_failure : ℕ × ℕ → ReadResult :=
  fun c => if c = (0, 0) then .err else .ok [65]

/-- Counterexample to claim C6: with slice `[(0,0), (1,0)]` and a seek/read that
fails only at `(0,0)`, the worker emits *no* events at all — the remaining
coordinate `(1,0)` is never sampled (sampling `[(1,0)]` alone would emit
its event) — because the failure propagates to `except Exception: pass`
(line 172) and ends the worker.  This refutes the claim that only the
failing sample is skipped and the worker continues with the remaining
coordinates of its slice. -/
theorem single_read_failure_aborts_slice :
    read_with_one_failure (0, 0) = ReadResult.err ∧
    read_with_one_failure (1, 0) = ReadResult.ok [65] ∧
    worker_events read_with_one_failure [(0, 0), (1, 0)] = [] ∧
    worker_events read_with_one_failure [(1, 0)] = [((1, 0), 1)] := by
  refine ⟨rfl, rfl, rfl, ?_⟩
  rfl

/-- Claim C6 (amended): the events of a worker sampling loop are exactly one
event per coordinate of the longest prefix of its slice on which no
seek/read raises, restricted to the coordinates whose read returned a
non-empty window: an empty read (short read at end of file, e.g. a
truncated file) skips only that sample and the loop continues, but a
seek/read that raises an exception silently ends the loop of that worker —
the remaining coordinates of the slice are dropped (the session as a whole
continues; the exception is swallowed by `except Exception: pass`). -/
theorem worker_read_recovery (read : ℕ × ℕ → ReadResult) (coords : List (ℕ × ℕ)) :
    worker_events read coords =
      (coords.takeWhile (fun c => decide (read c ≠ ReadResult.err))).filterMap
        (fun c =>
          match read c with
          | .ok [] => none
          | .ok data => some (c, score data)
          | .err => none) := by
  induction coords with
  | nil => rfl
  | cons c rest ih =>
    cases hr : read c with
    | err =>
      rw [worker_events, hr, List.takeWhile_cons]
      simp [hr]
    | ok data =>
      have hcons : (c :: rest).takeWhile (fun c => decide (read c ≠ ReadResult.err)) =
          c :: rest.takeWhile (fun c => decide (read c ≠ ReadResult.err)) := by
        rw [List.takeWhile_cons]
        simp [hr]
      rw [hcons]
      cases data with
      | nil =>
        simp only [worker_events, hr, List.filterMap_cons]
        simpa using ih
      | cons b bs =>
        simp only [worker_events, hr, List.filterMap_cons]
        simpa using ih

/-! Section: The actual acceptance bound of the single-file scheduler (C10)

`FileProcessorThread.run` accepts any `fileSize ≥ TOTAL_POINTS` (line 201),
which keeps `chunk_size ≥ 1`; every sample position then still lands inside
the file, so every read returns at least one byte and every first-pass
coordinate emits exactly one event. -/

/-- Reading `f.seek(pos); f.read(n)` on a file whose contents are `file`: the bytes
from `pos` (clamped at 0; positions are nonnegative here) up to `n` bytes
or end of file, whichever is first. -/
def file_read (file : List (Fin 256)) (pos : ℤ) (n : ℕ) : List (Fin 256) :=
  (file.drop pos.toNat).take n

/-- Claim C10: for a file accepted by the actual size check
(`file.length ≥ totalPoints`, so `chunk_size ≥ 1`) every computed sample
position lies in `[0, fileSize)`; consequently every read returns a
non-empty window (though near end of file it may be shorter than
`BYTES_PER_SAMPLE`), and a first-pass worker whose reads all return
non-empty data emits exactly one `point_sampled` event per coordinate of
its slice. -/
theorem accepted_file_single_pass (file : List (Fin 256)) (W H x y : ℕ) (off : ℤ)
    (coords : List (ℕ × ℕ)) (read : ℕ × ℕ → ReadResult)
    (data : ℕ × ℕ → List (Fin 256))
    (hx : x < W) (hy : y < H)
    (hsize : W * H ≤ file.length)
    (hoff0 : 0 ≤ off)
    (hoff : off ≤ ⌊max_offset file.length (W * H) AppConfig.BYTES_PER_SAMPLE⌋)
    (hread : ∀ c ∈ coords, read c = ReadResult.ok (data c) ∧ data c ≠ []) :
    (0 ≤ sample_pos file.length (W * H) H x y off ∧
      sample_pos file.length (W * H) H x y off < (file.length : ℤ)) ∧
    file_read file (sample_pos file.length (W * H) H x y off)
      AppConfig.BYTES_PER_SAMPLE ≠ [] ∧
    worker_events read coords = coords.map (fun c => (c, score (data c))) := by
  have hpos0 : 0 ≤ sample_pos file.length (W * H) H x y off :=
    add_nonneg (region_start_nonneg _ _ _ _ _) hoff0
  have hposlt : sample_pos file.length (W * H) H x y off < (file.length : ℤ) :=
    sample_pos_lt_fileSize file.length W H x y off hx hy hsize hoff0 hoff
  refine ⟨⟨hpos0, hposlt⟩, ?_, ?_⟩
  · unfold file_read
    intro hnil
    rcases (List.take_eq_nil_iff).mp hnil with h8 | hdrop
    · exact absurd h8 (by norm_num [AppConfig.BYTES_PER_SAMPLE])
    · have hlen : file.length ≤ (sample_pos file.length (W * H) H x y off).toNat :=
        List.drop_eq_nil_iff.mp hdrop
      have : (file.length : ℤ) ≤ sample_pos file.length (W * H) H x y off := by
        calc (file.length : ℤ) ≤ ((sample_pos file.length (W * H) H x y off).toNat : ℤ) := by
              exact_mod_cast hlen
          _ = sample_pos file.length (W * H) H x y off := Int.toNat_of_nonneg hpos0
      exact absurd hposlt (not_lt.mpr this)
  · induction coords with
    | nil => rfl
    | cons c rest ih =>
      obtain ⟨hc, hcne⟩ := hread c (List.mem_cons_self c rest)
      simp only [worker_events, hc, List.map_cons]
      rw [if_neg hcne]
      rw [ih (fun c' hc' => hread c' (List.mem_cons_of_mem c hc'))]

/-- Witness for C10: the four-byte file `[1, 2, 3, 4]` on a 2×2 grid
(`fileSize = totalPoints = 4 < totalPoints × sampleBytes = 32`), coordinate
`(1, 1)`, offset draw `0`, and a one-coordinate slice whose read returns
`[7]`. -/
theorem accepted_file_single_pass_witness :
    (1 < 2 ∧ 1 < 2 ∧ 2 * 2 ≤ ([1, 2, 3, 4] : List (Fin 256)).length ∧ (0 : ℤ) ≤ 0 ∧
      (0 : ℤ) ≤ ⌊max_offset ([1, 2, 3, 4] : List (Fin 256)).length (2 * 2)
        AppConfig.BYTES_PER_SAMPLE⌋ ∧
      (∀ c ∈ [((0 : ℕ), (0 : ℕ))],
        (fun _ : ℕ × ℕ => ReadResult.ok [(7 : Fin 256)]) c =
          ReadResult.ok ((fun _ : ℕ × ℕ => [(7 : Fin 256)]) c) ∧
        (fun _ : ℕ × ℕ => [(7 : Fin 256)]) c ≠ [])) ∧
    ((0 ≤ sample_pos ([1, 2, 3, 4] : List (Fin 256)).length (2 * 2) 2 1 1 0 ∧
        sample_pos ([1, 2, 3, 4] : List (Fin 256)).length (2 * 2) 2 1 1 0 <
          (([1, 2, 3, 4] : List (Fin 256)).length : ℤ)) ∧
      file_read ([1, 2, 3, 4] : List (Fin 256))
        (sample_pos ([1, 2, 3, 4] : List (Fin 256)).length (2 * 2) 2 1 1 0)
        AppConfig.BYTES_PER_SAMPLE ≠ [] ∧
      worker_events (fun _ : ℕ × ℕ => ReadResult.ok [(7 : Fin 256)]) [((0 : ℕ), (0 : ℕ))] =
        ([((0 : ℕ), (0 : ℕ))]).map (fun c => (c, score ((fun _ : ℕ × ℕ => [(7 : Fin 256)]) c)))) := by
  have hlen : ([1, 2, 3, 4] : List (Fin 256)).length = 4 := rfl
  have hfloor : ⌊max_offset ([1, 2, 3, 4] : List (Fin 256)).length (2 * 2)
      AppConfig.BYTES_PER_SAMPLE⌋ = 0 := by
    rw [hlen]
    norm_num [max_offset, chunk_size, AppConfig.BYTES_PER_SAMPLE]
  have hread : ∀ c ∈ [((0 : ℕ), (0 : ℕ))],
      (fun _ : ℕ × ℕ => ReadResult.ok [(7 : Fin 256)]) c =
        ReadResult.ok ((fun _ : ℕ × ℕ => [(7 : Fin 256)]) c) ∧
      (fun _ : ℕ × ℕ => [(7 : Fin 256)]) c ≠ [] := by
    intro c _
    exact ⟨rfl, by simp⟩
  refine ⟨⟨by norm_num, by norm_num, by rw [hlen], le_refl 0, by rw [hfloor], hread⟩, ?_⟩
  exact accepted_file_single_pass [1, 2, 3, 4] 2 2 1 1 0 [((0 : ℕ), (0 : ℕ))]
    (fun _ => ReadResult.ok [(7 : Fin 256)]) (fun _ => [(7 : Fin 256)])
    (by norm_num) (by norm_num) (by rw [hlen]) (le_refl 0) (by rw [hfloor]) hread

/-! Section: Multi-file batch tick (`FileSetWindow`, lines 465-518)

```python
points_per_file_per_batch = max(1, AppConfig.FILESET_BATCH_SIZE // len(self.render_states))

for file_path, state in self.render_states.items():
    start_index = state["current_index"]
    end_index = start_index + points_per_file_per_batch
    chunk = state["shuffled_coords"][start_index:end_index]
    samples_to_process.extend([(file_path, x, y) for x, y in chunk])
    if end_index >= len(state["shuffled_coords"]):
        state["current_index"] = 0
        random.shuffle(state["shuffled_coords"])
    else:
        state["current_index"] = end_index
```

The render state of each file (`add_file_widget`, lines 465-470) holds a shuffle
of `all_coordinates GRID_CELL_LOGICAL_WIDTH GRID_CELL_LOGICAL_HEIGHT`
(10000 coordinates) and a cursor. -/

/-- The entry of one file in `render_states` (lines 467-470). -/
structure FileRenderState : Type where
  shuffled_coords : List (ℕ × ℕ)
  current_index : ℕ

/-- Definition `points_per_file_per_batch = max(1, FILESET_BATCH_SIZE // numActiveFiles)`
(line 494). -/
def points_per_file_per_batch (numActiveFiles : ℕ) : ℕ :=
  max 1 (AppConfig.FILESET_BATCH_SIZE / numActiveFiles)

/-- The coordinates scheduled for one file in one tick:
`state["shuffled_coords"][start_index:end_index]` (lines 497-500). -/
def tick_chunk (state : FileRenderState) (ppb : ℕ) : List (ℕ × ℕ) :=
  (state.shuffled_coords.drop state.current_index).take ppb

/-- The cursor after the tick (lines 503-507): wrap to `0` (with a
reshuffle, modelled by the caller) on exhaustion, else advance. -/
def tick_next_index (state : FileRenderState) (ppb : ℕ) : ℕ :=
  if state.shuffled_coords.length ≤ state.current_index + ppb then 0
  else state.current_index + ppb

/-- Counterexample to claim C5: with `F = 3` active files and the per-tick
budget `B = FILESET_BATCH_SIZE = 500`, `points_per_file_per_batch = 166`,
and `⌊B/F⌋ = 166`, `⌈B/F⌉ = 167`.  A file whose cursor sits at 9960 of its
10000-coordinate shuffled sequence is scheduled only `10000 - 9960 = 40`
samples in that tick (the slice is clipped at the end of the sequence,
line 500), while a file with cursor 0 gets 166 — the claim that every
active file receives `⌊B/F⌋` or `⌈B/F⌉` samples with difference at most 1,
regardless of cursor position, is false.  (Cursor 9960 is reachable:
starting from 0 it advances by 166 per tick and `9960 = 60 × 166`.) -/
theorem tick_fairness_cex :
    points_per_file_per_batch 3 = 166 ∧
    AppConfig.FILESET_BATCH_SIZE / 3 = 166 ∧
    (tick_chunk ⟨all_coordinates 100 100, 0⟩ (points_per_file_per_batch 3)).length = 166 ∧
    (tick_chunk ⟨all_coordinates 100 100, 9960⟩ (points_per_file_per_batch 3)).length = 40 ∧
    (40 : ℕ) ≠ 166 ∧ (40 : ℕ) ≠ 167 ∧ ¬(166 - 40 ≤ (1 : ℕ)) := by
  have hppb : points_per_file_per_batch 3 = 166 := by decide
  have hlen : (all_coordinates 100 100).length = 10000 := by
    rw [all_coordinates_length]
  refine ⟨hppb, by decide, ?_, ?_, by decide, by decide, by decide⟩
  · rw [hppb]
    unfold tick_chunk
    rw [List.length_take, List.length_drop, hlen]
    show 166 ⊓ (10000 - 0) = 166
    omega
  · rw [hppb]
    unfold tick_chunk
    rw [List.length_take, List.length_drop, hlen]
    show 166 ⊓ (10000 - 9960) = 40
    omega

/-- Claim C5 (amended): in a tick with `F ≥ 1` active files, each file is
scheduled exactly `min (max 1 (B / F)) (L - cursor)` samples, where
`B = FILESET_BATCH_SIZE`, `L` is the length of its shuffled coordinate
sequence and `cursor` its current index; in particular every file whose
cursor is at least `max 1 (B / F)` away from the end of its sequence
receives exactly `max 1 (B / F)` samples (equal shares — the clipped
shortfall occurs only in the tick in which the sequence of a file wraps). -/
theorem tick_chunk_length (state : FileRenderState) (F : ℕ) :
    (tick_chunk state (points_per_file_per_batch F)).length =
      min (points_per_file_per_batch F)
        (state.shuffled_coords.length - state.current_index) ∧
    (state.current_index + points_per_file_per_batch F ≤ state.shuffled_coords.length →
      (tick_chunk state (points_per_file_per_batch F)).length =
        points_per_file_per_batch F) := by
  have hmin : (tick_chunk state (points_per_file_per_batch F)).length =
      min (points_per_file_per_batch F)
        (state.shuffled_coords.length - state.current_index) := by
    unfold tick_chunk
    rw [List.length_take, List.length_drop]
  refine ⟨hmin, fun hfar => ?_⟩
  rw [hmin]
  omega

/-- Witness for the amended C5: a file with cursor 0 on the full 100×100
shuffled sequence, among `F = 3` active files. -/
theorem tick_chunk_length_witness :
    ((⟨all_coordinates 100 100, 0⟩ : FileRenderState).current_index +
        points_per_file_per_batch 3 ≤
      (⟨all_coordinates 100 100, 0⟩ : FileRenderState).shuffled_coords.length) ∧
    ((tick_chunk ⟨all_coordinates 100 100, 0⟩ (points_per_file_per_batch 3)).length =
        min (points_per_file_per_batch 3)
          ((⟨all_coordinates 100 100, 0⟩ : FileRenderState).shuffled_coords.length -
            (⟨all_coordinates 100 100, 0⟩ : FileRenderState).current_index) ∧
      (tick_chunk ⟨all_coordinates 100 100, 0⟩ (points_per_file_per_batch 3)).length =
        points_per_file_per_batch 3) := by
  have hlen : (all_coordinates 100 100).length = 10000 := by
    rw [all_coordinates_length]
  have hfar : ((⟨all_coordinates 100 100, 0⟩ : FileRenderState).current_index +
      points_per_file_per_batch 3 ≤
    (⟨all_coordinates 100 100, 0⟩ : FileRenderState).shuffled_coords.length) := by
    have hppb : points_per_file_per_batch 3 = 166 := by decide
    show 0 + points_per_file_per_batch 3 ≤ (all_coordinates 100 100).length
    rw [hlen, hppb]
    omega
  exact ⟨hfar, (tick_chunk_length ⟨all_coordinates 100 100, 0⟩ 3).1,
    (tick_chunk_length ⟨all_coordinates 100 100, 0⟩ 3).2 hfar⟩
